import Mathlib

/-!
Verification of the tabular aggregation and visualization pipeline of
`host.py` (a Streamlit dashboard).  The pipeline is shallowly embedded:
datasets are row lists of named cells, the pandas operations used by the
source (dtype sniffing, `groupby(...).agg`, `groupby(...).size`,
`astype(str)` filtering and searching, `value_counts`, `describe`,
`mode`, `nunique`) are modelled as executable Lean functions over exact
numbers (`Int`/`ℚ`).  The grouping engine models pandas defaults:
group keys are deduplicated, rows whose grouping key contains a missing
value are dropped (`dropna=True`), and output groups are emitted in
ascending sorted key order (`sort=True`).
-/

namespace Dash

/-- Equality of fallible results is decidable when both components are. -/
instance {ε α : Type} [DecidableEq ε] [DecidableEq α] : DecidableEq (Except ε α) :=
  fun a b =>
    match a, b with
    | Except.ok x, Except.ok y => decidable_of_iff (x = y) (by simp)
    | Except.error e, Except.error f => decidable_of_iff (e = f) (by simp)
    | Except.ok _, Except.error _ => isFalse (fun h => Except.noConfusion h)
    | Except.error _, Except.ok _ => isFalse (fun h => Except.noConfusion h)

/-- A cell value of a loaded dataset: numeric, text, a parsed boolean
(`read_csv` turns a True/False token into a `bool` cell), or the missing
marker.  Numeric CSV values are modelled as exact integers (`host.py`
datasets use integer columns; float rounding is outside the claims
checked here). -/
inductive Value
  | num (x : Int)
  | str (s : String)
  | boolean (b : Bool)
  | missing
deriving DecidableEq

/-- Lexicographic comparison of char lists, used to model how pandas sorts
string group keys and string modes (Python string comparison). -/
def charsLe : List Char → List Char → Bool
  | [], _ => true
  | _ :: _, [] => false
  | a :: as, b :: bs => if a = b then charsLe as bs else decide (a < b)

/-- Constructor rank used to order values of different kinds; grouping
keys and modes in the app are homogeneous (strings from categorical
columns or ints), so the cross-kind order is never observable. -/
def Value.rank : Value → Nat
  | Value.num _ => 0
  | Value.str _ => 1
  | Value.boolean _ => 2
  | Value.missing => 3

/-- Total comparison on cell values: ints by `≤`, strings lexicographically
(as pandas sorts object keys), booleans with `False < True`, distinct
kinds by rank. -/
def valLe : Value → Value → Bool
  | Value.num x, Value.num y => decide (x ≤ y)
  | Value.str s, Value.str t => charsLe s.data t.data
  | Value.boolean p, Value.boolean q => decide (p ≤ q)
  | a, b => decide (a.rank ≤ b.rank)

/-- Lexicographic comparison of grouping-key tuples (pandas sorts a
MultiIndex of group keys lexicographically). -/
def keyLe : List Value → List Value → Bool
  | [], _ => true
  | _ :: _, [] => false
  | a :: as, b :: bs => if a = b then keyLe as bs else valLe a b

/-- A dataset row: one named cell per column, in column order. -/
abbrev Row := List (String × Value)

/-- Cell lookup `r[c]`; all rows of a well-formed dataset carry every
column, so the `missing` default is never exercised by the claims. -/
def getCell (r : Row) (c : String) : Value :=
  (List.lookup c r).getD Value.missing

/-- A loaded tabular dataset: ordered column names and ordered rows. -/
structure DataFrame where
  cols : List String
  rows : List Row
deriving DecidableEq

/-- The value sequence of one column (`df[c]`). -/
def colValues (df : DataFrame) (c : String) : List Value :=
  df.rows.map (fun r => getCell r c)

/-- The dtypes pandas `read_csv` (host.py line 57) infers: all-numeric
columns without missing values load as `int64`, numeric columns
containing missing values (and all-missing columns) as `float64`,
columns consisting entirely of True/False tokens (and no missing value,
which `bool` cannot hold) as `bool`, everything else (text, mixed,
boolean-with-missing, empty) as `object`. -/
inductive Dtype
  | int64
  | float64
  | boolean
  | obj
deriving DecidableEq

/-- Inferred dtype of a column's value list (see `Dtype`). -/
def columnDtype (vals : List Value) : Dtype :=
  if vals = [] then Dtype.obj
  else if vals.all (fun v => match v with | Value.num _ => true | _ => false) then Dtype.int64
  else if vals.all (fun v => match v with | Value.boolean _ => true | _ => false) then Dtype.boolean
  else if vals.all (fun v => match v with | Value.num _ => true | Value.missing => true | _ => false) then Dtype.float64
  else Dtype.obj

/-- `df.select_dtypes(include=incl).columns.tolist()` (host.py lines 175-176). -/
def select_dtypes (df : DataFrame) (incl : List Dtype) : List String :=
  df.cols.filter (fun c => decide (columnDtype (colValues df c) ∈ incl))

/-- `numeric_cols` (host.py line 175): columns of dtype int64 or float64. -/
def numeric_cols (df : DataFrame) : List String :=
  select_dtypes df [Dtype.int64, Dtype.float64]

/-- `categorical_cols` (host.py line 176): columns of dtype object
(`category` dtype never arises from `read_csv`). -/
def categorical_cols (df : DataFrame) : List String :=
  select_dtypes df [Dtype.obj]

/-- ASCII digit test. -/
def isDigit (c : Char) : Bool :=
  decide ('0' ≤ c) && decide (c ≤ '9')

/-- `YYYY-MM-DD` shape test for the permissive date parse model. -/
def dateShape : List Char → Bool
  | [a, b, c, d, e, f, g, h, i, j] =>
      isDigit a && isDigit b && isDigit c && isDigit d && decide (e = '-') &&
      isDigit f && isDigit g && decide (h = '-') && isDigit i && isDigit j
  | _ => false

/-- Modelled from `pd.to_datetime(df[col], errors='raise')` (host.py
line 182): numeric values parse as epoch timestamps, missing values parse
as `NaT`, boolean cells do not parse (`to_datetime` raises `TypeError`
on bool), and text parses when it is an ISO `YYYY-MM-DD` date.  The full
grammar of the permissive parser is not modelled; no claim depends on
which columns are date-like, only on `date_cols ⊆ df.cols`. -/
def looksLikeDate : Value → Bool
  | Value.missing => true
  | Value.num _ => true
  | Value.boolean _ => false
  | Value.str s => dateShape s.data

/-- `date_cols` detection loop (host.py lines 179-185): a column joins
`date_cols` exactly when parsing the whole column succeeds. -/
def date_cols (df : DataFrame) : List String :=
  df.cols.filter (fun c => (colValues df c).all looksLikeDate)

/-- Insert into a list sorted by the boolean comparison `le`. -/
def insertBy {α : Type} (le : α → α → Bool) (x : α) : List α → List α
  | [] => [x]
  | a :: t => if le x a then x :: a :: t else a :: insertBy le x t

/-- Insertion sort by the boolean comparison `le` (stable). -/
def sortBy {α : Type} (le : α → α → Bool) : List α → List α
  | [] => []
  | a :: t => insertBy le a (sortBy le t)

/-- Deduplicate keeping the first occurrence of each element, preserving
first-seen order. -/
def dedupFirst {α : Type} [DecidableEq α] : List α → List α
  | [] => []
  | a :: t => a :: (dedupFirst t).filter (fun b => decide (b ≠ a))

/-- The non-missing values of a column (pandas `dropna`). -/
def nonMissing (vals : List Value) : List Value :=
  vals.filter (fun v => decide (v ≠ Value.missing))

/-- The reducers selectable in Advanced mode (host.py lines 226-234). -/
inductive AggType
  | sum
  | mean
  | median
  | count
  | min
  | max
  | std
deriving DecidableEq

/-- The integer payload of a numeric cell. -/
def toIntOpt : Value → Option Int
  | Value.num x => some x
  | _ => none

/-- The numeric values of a column, skipping missing cells (pandas
reducers skip `NaN`; value columns are numeric, so no text occurs). -/
def nonMissingInts (vals : List Value) : List Int :=
  vals.filterMap toIntOpt

/-- The sorted non-missing numeric values of a column, as rationals. -/
def sortedQ (vals : List Value) : List ℚ :=
  (sortBy (fun a b => decide (a ≤ b)) (nonMissingInts vals)).map (fun x => (x : ℚ))

/-- One reduced scalar.  `exact` carries an exact rational, `sqrtOf v`
models the (possibly irrational) square root pandas takes for the sample
standard deviation of variance `v`, and `nan` models pandas `NaN`. -/
inductive AggResult
  | exact (q : ℚ)
  | sqrtOf (q : ℚ)
  | nan
deriving DecidableEq

/-- Linear-interpolated quantile of an ascending list (pandas default
interpolation), `nan` on an empty list. -/
def quantileQ (xs : List ℚ) (p : ℚ) : AggResult :=
  match xs with
  | [] => AggResult.nan
  | _ =>
    let n := xs.length
    let pos : ℚ := p * ((n : ℚ) - 1)
    let i : Nat := (Rat.floor pos).toNat
    let lo := xs.getD i 0
    let hi := xs.getD (i + 1) lo
    AggResult.exact (lo + (pos - (Rat.floor pos : ℚ)) * (hi - lo))

/-- `series.agg(agg_type)` on one group's value column (host.py line 251),
per pandas semantics: missing values are skipped; `sum` of an empty
selection is 0; `mean`/`median`/`min`/`max` of an empty selection and
`std` of ≤ 1 values are `NaN`; `std` uses the sample (N-1) variance. -/
def applyAgg : AggType → List Value → AggResult
  | AggType.count, vals => AggResult.exact ((nonMissingInts vals).length : ℚ)
  | AggType.sum, vals => AggResult.exact (((nonMissingInts vals).sum : Int) : ℚ)
  | AggType.mean, vals =>
      let xs := nonMissingInts vals
      if xs.length = 0 then AggResult.nan
      else AggResult.exact ((xs.sum : ℚ) / (xs.length : ℚ))
  | AggType.median, vals => quantileQ (sortedQ vals) (1 / 2)
  | AggType.min, vals =>
      match nonMissingInts vals with
      | [] => AggResult.nan
      | x :: t => AggResult.exact ((t.foldl min x : Int) : ℚ)
  | AggType.max, vals =>
      match nonMissingInts vals with
      | [] => AggResult.nan
      | x :: t => AggResult.exact ((t.foldl max x : Int) : ℚ)
  | AggType.std, vals =>
      let xs := (nonMissingInts vals).map (fun x => (x : ℚ))
      if xs.length ≤ 1 then AggResult.nan
      else
        let m := xs.sum / (xs.length : ℚ)
        AggResult.sqrtOf ((xs.map (fun x => (x - m) * (x - m))).sum / ((xs.length : ℚ) - 1))

/-- One row of `result_df`: the grouping-key tuple (one value per grouping
column, in grouping-column order) and the computed scalar, named `Hasil`
in the source and `Result` in the spec. -/
structure AggRow where
  key : List Value
  result : AggResult
deriving DecidableEq

/-- The grouping-key tuple of a row. -/
def keyOf (gcols : List String) (r : Row) : List Value :=
  gcols.map (fun c => getCell r c)

/-- The rows that participate in the group-by: pandas `groupby` with its
default `dropna=True` drops every row whose grouping key contains a
missing value. -/
def validRows (df : DataFrame) (gcols : List String) : List Row :=
  df.rows.filter (fun r => decide (Value.missing ∉ keyOf gcols r))

/-- The distinct grouping keys in the order the group-by engine emits
them: deduplicated and ascending (pandas default `sort=True`). -/
def groupKeys (df : DataFrame) (gcols : List String) : List (List Value) :=
  sortBy keyLe (dedupFirst ((validRows df gcols).map (keyOf gcols)))

/-- The rows of one group, in input order. -/
def groupOf (df : DataFrame) (gcols : List String) (k : List Value) : List Row :=
  (validRows df gcols).filter (fun r => decide (keyOf gcols r = k))

/-- The Advanced-mode aggregation (host.py lines 248-252):
`df.groupby(group_by_cols).size().reset_index(name='Hasil')` for `count`,
`df.groupby(group_by_cols)[value_col].agg(agg_type).reset_index()`
renamed to `group_by_cols + ['Hasil']` otherwise. -/
def groupbyAggregate (df : DataFrame) (group_by_cols : List String)
    (value_col : String) (agg_type : AggType) : List AggRow :=
  if agg_type = AggType.count then
    (groupKeys df group_by_cols).map
      (fun k => ⟨k, AggResult.exact ((groupOf df group_by_cols k).length : ℚ)⟩)
  else
    (groupKeys df group_by_cols).map
      (fun k => ⟨k, applyAgg agg_type ((groupOf df group_by_cols k).map (fun r => getCell r value_col))⟩)

/-- The aggregation as run inside the `try` block: pandas raises
`KeyError` when a referenced column is absent from the frame (inside the
app the columns are drawn from `df.columns`, so this never fires, but
the source still wraps the call in `try/except`). -/
def groupbyAggregateE (df : DataFrame) (group_by_cols : List String)
    (value_col : String) (agg_type : AggType) : Except String (List AggRow) :=
  if group_by_cols.all (fun c => decide (c ∈ df.cols)) then
    if agg_type = AggType.count then
      Except.ok (groupbyAggregate df group_by_cols value_col agg_type)
    else if value_col ∈ df.cols then
      Except.ok (groupbyAggregate df group_by_cols value_col agg_type)
    else Except.error ("KeyError")
  else Except.error ("KeyError")

/-- The spec stored to `st.session_state['analysis_config']` (host.py
lines 256-260). -/
structure AnalysisConfig where
  group_by : List String
  value_col : String
  agg_type : AggType
deriving DecidableEq

/-- The ambient session state: the last computed result and its config,
absent before the first successful aggregation. -/
structure SessionState where
  analysis_result : Option (List AggRow)
  analysis_config : Option AnalysisConfig
deriving DecidableEq

/-- What the button handler reports: `st.success` (line 261), `st.error`
in the `except` branch (line 263), or the `st.warning` asking to select
grouping and value columns (line 265). -/
inductive RunOutcome
  | success
  | computeError (msg : String)
  | missingSelection
deriving DecidableEq

/-- The `🚀 Hitung & Tampilkan Hasil` button handler (host.py lines
244-265).  The gate is Python truthiness: `if group_by_cols and
value_col:` requires a non-empty grouping list AND a non-`None` value
column, whatever the reducer.  Session state is assigned only inside the
`try` block after the aggregation succeeded. -/
def runAnalysis (sess : SessionState) (df : DataFrame) (group_by_cols : List String)
    (value_col : Option String) (agg_type : AggType) : SessionState × RunOutcome :=
  match group_by_cols, value_col with
  | _ :: _, some v =>
      match groupbyAggregateE df group_by_cols v agg_type with
      | Except.ok res => (⟨some res, some ⟨group_by_cols, v, agg_type⟩⟩, RunOutcome.success)
      | Except.error e => (sess, RunOutcome.computeError e)
  | _, _ => (sess, RunOutcome.missingSelection)

/-- `astype(str)` rendering of one cell, per the dtype of its column:
`str(NaN) = "nan"`, ints in an `int64` or `object` column render bare,
ints stored in a `float64` column (a numeric column that contains missing
values) render with a trailing `.0`. -/
def renderCell (dt : Dtype) (v : Value) : String :=
  match v with
  | Value.missing => "nan"
  | Value.str s => s
  | Value.boolean b => if b then "True" else "False"
  | Value.num x => if dt = Dtype.float64 then toString x ++ ".0" else toString x

/-- The categorical allow-list filters (host.py lines 290-293): for each
`(col, filter_val)`, when `'Semua' not in filter_val and filter_val`,
keep rows whose rendered value for `col` is in the list.  Rendering uses
the dtype of the original frame (row filtering does not change pandas
dtypes). -/
def applyFilters (df : DataFrame) (filters : List (String × List String)) : DataFrame :=
  filters.foldl
    (fun acc cv =>
      if "Semua" ∉ cv.2 ∧ cv.2 ≠ [] then
        let keep : Row → Bool :=
          fun r => decide (renderCell (columnDtype (colValues df cv.1)) (getCell r cv.1) ∈ cv.2)
        { acc with rows := acc.rows.filter keep }
      else acc)
    df

/-- Does `pat` start `hay`? -/
def seqStartsWith : List Char → List Char → Bool
  | [], _ => true
  | _ :: _, [] => false
  | a :: as, b :: bs => decide (a = b) && seqStartsWith as bs

/-- Does `hay` contain `pat` as a contiguous subsequence? -/
def seqContains (pat : List Char) : List Char → Bool
  | [] => seqStartsWith pat []
  | b :: t => seqStartsWith pat (b :: t) || seqContains pat t

/-- Case-insensitive literal containment, the behaviour of
`str.contains(pat, case=False)` for patterns without regex
metacharacters.  (For patterns with metacharacters pandas matches them
as regular expressions; no theorem below relies on that region.) -/
def strContainsCI (hay pat : String) : Bool :=
  seqContains (pat.data.map Char.toLower) (hay.data.map Char.toLower)

/-- Parenthesis-balance check. -/
def parensOk : List Char → Nat → Bool
  | [], d => decide (d = 0)
  | c :: t, d =>
      if c = '(' then parensOk t (d + 1)
      else if c = ')' then decide (0 < d) && parensOk t (d - 1)
      else parensOk t d

/-- Modelled from Python `re.compile`, which `str.contains` applies to
the raw query: a pattern with unbalanced parentheses (such as `"("`)
raises `re.error`.  Other invalid-pattern classes are not modelled; no
theorem below relies on them. -/
def reCompileOk (q : String) : Bool :=
  parensOk q.data 0

/-- The per-row search mask (host.py line 305):
`df_filtered.astype(str).apply(lambda x: x.str.contains(search,
case=False, na=False)).any(axis=1)`.  Note `astype(str)` renders a
missing cell as the string `"nan"` before `str.contains` runs, so the
`na=False` argument never sees a missing value. -/
def rowMatchesSearch (df : DataFrame) (q : String) (r : Row) : Bool :=
  df.cols.any (fun c => strContainsCI (renderCell (columnDtype (colValues df c)) (getCell r c)) q)

/-- `df_display` (host.py lines 289-309): the categorical filters, then
the free-text search when `search` is non-empty.  The search compiles the
raw query as a regex and the script raises (uncaught) on an invalid
pattern. -/
def dfDisplay (df : DataFrame) (filters : List (String × List String))
    (search : String) : Except String DataFrame :=
  let dfF := applyFilters df filters
  if search = "" then Except.ok dfF
  else if reCompileOk search then
    Except.ok { dfF with rows := dfF.rows.filter (rowMatchesSearch df search) }
  else Except.error ("re.error")

/-- `series.value_counts()` (host.py line 426): counts of the distinct
non-missing values, sorted by count descending.  pandas leaves the order
among equal counts unspecified; it is modelled as first-seen (stable
sort), which no claim relies on. -/
def valueCounts (vals : List Value) : List (Value × Nat) :=
  let nm := nonMissing vals
  sortBy (fun a b => decide (b.2 ≤ a.2)) ((dedupFirst nm).map (fun k => (k, nm.count k)))

/-- The data behind one Simple-mode pie chart (host.py lines 425-436):
`df_display[col].value_counts()` capped by `.head(10)`. -/
def autoPieData (df : DataFrame) (filters : List (String × List String))
    (search : String) (col : String) : Except String (List (Value × Nat)) :=
  (dfDisplay df filters search).map (fun d => (valueCounts (colValues d col)).take 10)

/-- The column fed to one Simple-mode histogram / box plot (host.py lines
450-469): `df_display[col]`. -/
def autoHistSource (df : DataFrame) (filters : List (String × List String))
    (search : String) (col : String) : Except String (List Value) :=
  (dfDisplay df filters search).map (fun d => colValues d col)

/-- One column of `df.describe()`: count of non-missing values, mean,
sample std, min, linear-interpolated quartiles, max. -/
structure DescribeCol where
  count : Nat
  mean : AggResult
  std : AggResult
  min : AggResult
  q25 : AggResult
  q50 : AggResult
  q75 : AggResult
  max : AggResult
deriving DecidableEq

/-- `series.describe()` for one numeric column. -/
def describeCol (vals : List Value) : DescribeCol :=
  { count := (nonMissingInts vals).length
    mean := applyAgg AggType.mean vals
    std := applyAgg AggType.std vals
    min := applyAgg AggType.min vals
    q25 := quantileQ (sortedQ vals) (1 / 4)
    q50 := quantileQ (sortedQ vals) (1 / 2)
    q75 := quantileQ (sortedQ vals) (3 / 4)
    max := applyAgg AggType.max vals }

/-- The Simple-mode numeric summary table (host.py line 481):
`df_display[numeric_cols].describe()`; `numeric_cols` was classified on
the unfiltered frame (line 175). -/
def autoDescribe (df : DataFrame) (filters : List (String × List String))
    (search : String) : Except String (List (String × DescribeCol)) :=
  (dfDisplay df filters search).map
    (fun d => (numeric_cols df).map (fun c => (c, describeCol (colValues d c))))

/-- `series.nunique()`: number of distinct non-missing values. -/
def seriesNunique (vals : List Value) : Nat :=
  (dedupFirst (nonMissing vals)).length

/-- `series.mode()`: the non-missing values attaining the maximal count,
returned in ascending sorted order (pandas sorts the modes). -/
def seriesMode (vals : List Value) : List Value :=
  let nm := nonMissing vals
  let ks := dedupFirst nm
  let m := (ks.map (fun k => nm.count k)).foldr max 0
  sortBy valLe (ks.filter (fun k => decide (nm.count k = m)))

/-- One row of the Simple-mode categorical summary (host.py lines
489-493): column name, `nunique`, and `mode()[0]` when the mode list is
non-empty (`'-'`, modelled as `none`, otherwise). -/
def catInfoRow (d : DataFrame) (c : String) : String × Nat × Option Value :=
  (c, seriesNunique (colValues d c), (seriesMode (colValues d c)).head?)

/-- The Simple-mode categorical summary table (host.py lines 486-495),
built from `df_display` over `categorical_cols` of the unfiltered frame. -/
def autoCatInfo (df : DataFrame) (filters : List (String × List String))
    (search : String) : Except String (List (String × Nat × Option Value)) :=
  (dfDisplay df filters search).map
    (fun d => (categorical_cols df).map (fun c => catInfoRow d c))

/-- The `Result` (`Hasil`) scalar as a rational (0 for the `NaN` and
square-root cases, which the sum/count claims never produce). -/
def AggResult.q0 : AggResult → ℚ
  | AggResult.exact q => q
  | _ => 0

/-- Sum of the `Result` column of an aggregation result. -/
def resultSum (rs : List AggRow) : ℚ :=
  (rs.map (fun a => AggResult.q0 a.result)).sum

/-- A cell's numeric payload with missing (and non-numeric) as 0, so that
summing it equals pandas' missing-skipping sum. -/
def valQ0 : Value → ℚ
  | Value.num x => (x : ℚ)
  | _ => 0

/-- Modelled from the spec's words, for comparison with the engine's
order: the grouping keys in first-seen order ("the order in which each
distinct grouping-key tuple first occurs in the input"). -/
def firstSeenKeys (df : DataFrame) (gcols : List String) : List (List Value) :=
  dedupFirst ((validRows df gcols).map (keyOf gcols))

/-- Modelled from the spec's words, for comparison with `seriesMode`:
the most-frequent value with ties broken by first encounter in the
column's row order. -/
def firstSeenMode (vals : List Value) : Option Value :=
  let nm := nonMissing vals
  let ks := dedupFirst nm
  let m := (ks.map (fun k => nm.count k)).foldr max 0
  (ks.filter (fun k => decide (nm.count k = m))).head?

/-! Concrete datasets and session states used by the claim theorems below. -/

def dfC1 : DataFrame :=
  ⟨["g", "v"],
   [[("g", Value.str "A"), ("v", Value.num 1)],
    [("g", Value.missing), ("v", Value.num 2)]]⟩

def dfC2 : DataFrame :=
  ⟨["g"], [[("g", Value.str "A")], [("g", Value.missing)]]⟩

def dfC3 : DataFrame :=
  ⟨["Region", "Sales"],
   [[("Region", Value.str "B"), ("Sales", Value.num 1)],
    [("Region", Value.str "A"), ("Sales", Value.num 2)]]⟩

def dfC3ex : DataFrame :=
  ⟨["Region", "Sales"],
   [[("Region", Value.str "A"), ("Sales", Value.num 10)],
    [("Region", Value.str "A"), ("Sales", Value.num 20)],
    [("Region", Value.str "B"), ("Sales", Value.num 30)]]⟩

def dfC4 : DataFrame :=
  ⟨["v", "c"], [[("v", Value.num 7), ("c", Value.str "x")]]⟩

def dfC4b : DataFrame :=
  ⟨["b"], [[("b", Value.boolean true)], [("b", Value.boolean false)]]⟩

def dfC6 : DataFrame :=
  ⟨["c"], [[("c", Value.missing)]]⟩

def dfC7 : DataFrame :=
  ⟨["c"], [[("c", Value.str "hello")]]⟩

def sessC8 : SessionState :=
  ⟨some [⟨[Value.str "A"], AggResult.exact 5⟩], some ⟨["g"], "v", AggType.sum⟩⟩

def dfC8 : DataFrame :=
  ⟨["g"], [[("g", Value.str "x")]]⟩

def valsC9 : List Value := [Value.str "b", Value.str "a"]

def dfC9 : DataFrame :=
  ⟨["c"], [[("c", Value.str "b")], [("c", Value.str "a")]]⟩

def dfC10 : DataFrame :=
  ⟨["c", "n"],
   [[("c", Value.str "x"), ("n", Value.num 1)],
    [("c", Value.str "y"), ("n", Value.num 2)]]⟩

def dC10 : DataFrame :=
  ⟨["c", "n"], [[("c", Value.str "x"), ("n", Value.num 1)]]⟩

theorem charsLe_refl (l : List Char) : charsLe l l = true := by
  induction l with
  | nil => rfl
  | cons a t ih => simp [charsLe, ih]

theorem charsLe_total (l1 : List Char) : ∀ l2, charsLe l1 l2 = true ∨ charsLe l2 l1 = true := by
  induction l1 with
  | nil => intro l2; left; rfl
  | cons a as ih =>
    intro l2
    cases l2 with
    | nil => right; rfl
    | cons b bs =>
      by_cases hab : a = b
      · subst hab
        simpa [charsLe] using ih bs
      · rcases lt_or_gt_of_ne hab with h | h
        · left; simp [charsLe, hab, h]
        · right; simp [charsLe, Ne.symm hab, h]

theorem charsLe_trans (l1 : List Char) :
    ∀ l2 l3, charsLe l1 l2 = true → charsLe l2 l3 = true → charsLe l1 l3 = true := by
  induction l1 with
  | nil => intro l2 l3 _ _; rfl
  | cons a as ih =>
    intro l2 l3 h1 h2
    cases l2 with
    | nil => simp [charsLe] at h1
    | cons b bs =>
      cases l3 with
      | nil => simp [charsLe] at h2
      | cons c cs =>
        by_cases hab : a = b
        · subst hab
          by_cases hbc : a = c
          · subst hbc
            simp [charsLe] at h1 h2 ⊢
            exact ih bs cs h1 h2
          · simpa [charsLe, hbc] using (by simpa [charsLe, hbc] using h2 : decide (a < c) = true)
        · by_cases hbc : b = c
          · subst hbc
            simpa [charsLe, hab] using h1
          · have hab' : a < b := by simpa [charsLe, hab] using h1
            have hbc' : b < c := by simpa [charsLe, hbc] using h2
            have hac' : a < c := lt_trans hab' hbc'
            have hac : a ≠ c := ne_of_lt hac'
            simp [charsLe, hac, hac']

theorem charsLe_antisymm (l1 : List Char) :
    ∀ l2, charsLe l1 l2 = true → charsLe l2 l1 = true → l1 = l2 := by
  induction l1 with
  | nil =>
    intro l2 _ h2
    cases l2 with
    | nil => rfl
    | cons b bs => simp [charsLe] at h2
  | cons a as ih =>
    intro l2 h1 h2
    cases l2 with
    | nil => simp [charsLe] at h1
    | cons b bs =>
      by_cases hab : a = b
      · subst hab
        simp [charsLe] at h1 h2
        exact congrArg (a :: ·) (ih bs h1 h2)
      · have h1' : a < b := by simpa [charsLe, hab] using h1
        have h2' : b < a := by simpa [charsLe, Ne.symm hab] using h2
        exact absurd h1' (lt_asymm h2')

theorem valLe_refl (a : Value) : valLe a a = true := by
  cases a <;> simp [valLe, charsLe_refl]

theorem valLe_total (a b : Value) : valLe a b = true ∨ valLe b a = true := by
  cases a <;> cases b <;> simp [valLe, Value.rank] <;> first
    | exact le_total _ _
    | exact charsLe_total _ _

theorem valLe_trans (a b c : Value) :
    valLe a b = true → valLe b c = true → valLe a c = true := by
  cases a <;> cases b <;> cases c <;> simp [valLe, Value.rank] <;>
    first
      | exact fun h1 h2 => le_trans h1 h2
      | exact fun h1 h2 => charsLe_trans _ _ _ h1 h2

theorem stringOfDataEq (s t : String) (h : s.data = t.data) : s = t := by
  cases s; cases t; exact congrArg String.mk h

theorem valLe_antisymm (a b : Value) :
    valLe a b = true → valLe b a = true → a = b := by
  cases a <;> cases b <;> simp [valLe, Value.rank] <;>
    first
      | exact fun h1 h2 => le_antisymm h1 h2
      | exact fun h1 h2 => stringOfDataEq _ _ (charsLe_antisymm _ _ h1 h2)

theorem keyLe_total (k1 : List Value) : ∀ k2, keyLe k1 k2 = true ∨ keyLe k2 k1 = true := by
  induction k1 with
  | nil => intro k2; left; rfl
  | cons a as ih =>
    intro k2
    cases k2 with
    | nil => right; rfl
    | cons b bs =>
      by_cases hab : a = b
      · subst hab
        simpa [keyLe] using ih bs
      · simpa [keyLe, hab, Ne.symm hab] using valLe_total a b

theorem keyLe_trans (k1 : List Value) :
    ∀ k2 k3, keyLe k1 k2 = true → keyLe k2 k3 = true → keyLe k1 k3 = true := by
  induction k1 with
  | nil => intro k2 k3 _ _; rfl
  | cons a as ih =>
    intro k2 k3 h1 h2
    cases k2 with
    | nil => simp [keyLe] at h1
    | cons b bs =>
      cases k3 with
      | nil => simp [keyLe] at h2
      | cons c cs =>
        by_cases hab : a = b
        · subst hab
          by_cases hbc : a = c
          · subst hbc
            simp [keyLe] at h1 h2 ⊢
            exact ih bs cs h1 h2
          · simpa [keyLe, hbc] using (by simpa [keyLe, hbc] using h2 : valLe a c = true)
        · by_cases hbc : b = c
          · subst hbc
            simpa [keyLe, hab] using h1
          · have hab' : valLe a b = true := by simpa [keyLe, hab] using h1
            have hbc' : valLe b c = true := by simpa [keyLe, hbc] using h2
            have hac : a ≠ c := by
              intro h
              subst h
              exact hbc (valLe_antisymm _ _ hbc' hab')
            simp [keyLe, hac, valLe_trans _ _ _ hab' hbc']

theorem insertBy_perm {α : Type} (le : α → α → Bool) (x : α) (l : List α) :
    (insertBy le x l).Perm (x :: l) := by
  induction l with
  | nil => exact List.Perm.refl _
  | cons a t ih =>
    have hun : insertBy le x (a :: t) = if le x a then x :: a :: t else a :: insertBy le x t := rfl
    rw [hun]
    by_cases h : le x a = true
    · rw [if_pos h]
    · rw [if_neg h]
      exact (ih.cons a).trans (List.Perm.swap x a t)

theorem sortBy_perm {α : Type} (le : α → α → Bool) (l : List α) :
    (sortBy le l).Perm l := by
  induction l with
  | nil => exact List.Perm.refl _
  | cons a t ih => exact (insertBy_perm le a (sortBy le t)).trans (ih.cons a)

theorem pairwise_insertBy {α : Type} (le : α → α → Bool)
    (htot : ∀ a b, le a b = true ∨ le b a = true)
    (htr : ∀ a b c, le a b = true → le b c = true → le a c = true)
    (x : α) (l : List α) (hp : l.Pairwise (fun a b => le a b = true)) :
    (insertBy le x l).Pairwise (fun a b => le a b = true) := by
  induction l with
  | nil => simp [insertBy]
  | cons a t ih =>
    rcases List.pairwise_cons.mp hp with ⟨ha, hp'⟩
    have hun : insertBy le x (a :: t) = if le x a then x :: a :: t else a :: insertBy le x t := rfl
    rw [hun]
    by_cases h : le x a = true
    · rw [if_pos h]
      refine List.pairwise_cons.mpr ⟨?_, hp⟩
      intro y hy
      rcases List.mem_cons.mp hy with rfl | hy
      · exact h
      · exact htr x a y h (ha y hy)
    · rw [if_neg h]
      refine List.pairwise_cons.mpr ⟨?_, ih hp'⟩
      intro y hy
      have hy' : y ∈ x :: t := (insertBy_perm le x t).mem_iff.mp hy
      rcases List.mem_cons.mp hy' with rfl | hy'
      · rcases htot y a with h' | h'
        · exact absurd h' h
        · exact h'
      · exact ha y hy'

theorem pairwise_sortBy {α : Type} (le : α → α → Bool)
    (htot : ∀ a b, le a b = true ∨ le b a = true)
    (htr : ∀ a b c, le a b = true → le b c = true → le a c = true)
    (l : List α) : (sortBy le l).Pairwise (fun a b => le a b = true) := by
  induction l with
  | nil => simp [sortBy]
  | cons a t ih => exact pairwise_insertBy le htot htr a (sortBy le t) ih

theorem mem_dedupFirst {α : Type} [DecidableEq α] (x : α) :
    ∀ l : List α, x ∈ dedupFirst l ↔ x ∈ l := by
  intro l
  induction l with
  | nil => simp [dedupFirst]
  | cons a t ih =>
    by_cases hxa : x = a
    · subst hxa
      simp [dedupFirst]
    · simp [dedupFirst, hxa, List.mem_filter, ih]

theorem nodup_dedupFirst {α : Type} [DecidableEq α] :
    ∀ l : List α, (dedupFirst l).Nodup := by
  intro l
  induction l with
  | nil => simp [dedupFirst]
  | cons a t ih =>
    refine List.nodup_cons.mpr ⟨?_, ih.filter _⟩
    intro hmem
    have := (List.mem_filter.mp hmem).2
    simp at this

theorem filterOfMap {α β : Type} (p : β → Bool) (f : α → β) :
    ∀ l : List α, (l.map f).filter p = (l.filter (fun a => p (f a))).map f := by
  intro l
  induction l with
  | nil => rfl
  | cons a t ih =>
    cases h : p (f a) <;> simp [List.filter_cons, h, ih]

theorem dedupFirst_map {α β : Type} [DecidableEq α] [DecidableEq β]
    (f : α → β) (hf : Function.Injective f) :
    ∀ l : List α, dedupFirst (l.map f) = (dedupFirst l).map f := by
  intro l
  induction l with
  | nil => rfl
  | cons a t ih =>
    simp only [List.map_cons, dedupFirst, ih, filterOfMap]
    refine congrArg (f a :: ·) (congrArg (List.map f) (List.filter_congr ?_))
    intro b _
    simp only [decide_eq_decide]
    exact ⟨fun h h' => h (congrArg f h'), fun h h' => h (hf h')⟩

theorem sum_split {α : Type} (p : α → Bool) (h : α → ℚ) :
    ∀ l : List α,
      ((l.filter p).map h).sum + ((l.filter (fun a => !(p a))).map h).sum = (l.map h).sum := by
  intro l
  induction l with
  | nil => simp
  | cons a t ih =>
    cases hp : p a <;> simp [List.filter_cons, hp] <;> linarith [ih]

theorem sum_groups {α κ : Type} [DecidableEq κ] (h : α → ℚ) (f : α → κ) :
    ∀ (ks : List κ) (l : List α), ks.Nodup → (∀ r ∈ l, f r ∈ ks) →
      (ks.map (fun k => ((l.filter (fun r => decide (f r = k))).map h).sum)).sum
        = (l.map h).sum := by
  intro ks
  induction ks with
  | nil =>
    intro l _ hcov
    have : l = [] := List.eq_nil_iff_forall_not_mem.mpr (fun r hr => by simpa using hcov r hr)
    subst this
    simp
  | cons k ks ih =>
    intro l hnd hcov
    have hsplit := sum_split (fun r => decide (f r = k)) h l
    have hcov' : ∀ r ∈ l.filter (fun r => !(decide (f r = k))), f r ∈ ks := by
      intro r hr
      rcases List.mem_filter.mp hr with ⟨hrl, hrk⟩
      have hne : f r ≠ k := by simpa using hrk
      rcases List.mem_cons.mp (hcov r hrl) with h' | h'
      · exact absurd h' hne
      · exact h'
    have ihl := ih (l.filter (fun r => !(decide (f r = k)))) (List.nodup_cons.mp hnd).2 hcov'
    have hmap : ∀ k' ∈ ks,
        l.filter (fun r => decide (f r = k'))
          = (l.filter (fun r => !(decide (f r = k)))).filter (fun r => decide (f r = k')) := by
      intro k' hk'
      have hkk' : k' ≠ k := by
        intro hh
        subst hh
        exact (List.nodup_cons.mp hnd).1 hk'
      rw [List.filter_filter]
      apply List.filter_congr
      intro r _
      cases hr : decide (f r = k')
      · simp
      · have : f r = k' := of_decide_eq_true hr
        simp [this, hkk']
    calc
      (List.map (fun k => ((l.filter (fun r => decide (f r = k))).map h).sum) (k :: ks)).sum
          = ((l.filter (fun r => decide (f r = k))).map h).sum
            + (ks.map (fun k' => ((l.filter (fun r => decide (f r = k'))).map h).sum)).sum := by
            simp
      _ = ((l.filter (fun r => decide (f r = k))).map h).sum
            + (ks.map (fun k' =>
                (((l.filter (fun r => !(decide (f r = k)))).filter
                    (fun r => decide (f r = k'))).map h).sum)).sum := by
            congr 1
            congr 1
            apply List.map_congr_left
            intro k' hk'
            rw [hmap k' hk']
      _ = ((l.filter (fun r => decide (f r = k))).map h).sum
            + ((l.filter (fun r => !(decide (f r = k)))).map h).sum := by rw [ihl]
      _ = (l.map h).sum := hsplit

theorem sum_const_one_q {α : Type} : ∀ l : List α, (l.map (fun _ => (1 : ℚ))).sum = (l.length : ℚ) := by
  intro l
  induction l with
  | nil => simp
  | cons a t ih =>
    simp [ih]
    ring

theorem sumInts_cast (vs : List Value) :
    ((nonMissingInts vs).sum : ℚ) = (vs.map valQ0).sum := by
  induction vs with
  | nil => simp [nonMissingInts]
  | cons v t ih =>
    cases v <;> simp [nonMissingInts, List.filterMap_cons, toIntOpt, valQ0] at ih ⊢ <;>
      simp [ih]

theorem groupKeys_nodup (df : DataFrame) (gcols : List String) :
    (groupKeys df gcols).Nodup :=
  ((sortBy_perm keyLe _).nodup_iff).mpr (nodup_dedupFirst _)

theorem mem_groupKeys (df : DataFrame) (gcols : List String) (r : Row)
    (hr : r ∈ validRows df gcols) : keyOf gcols r ∈ groupKeys df gcols := by
  unfold groupKeys
  refine ((sortBy_perm keyLe _).mem_iff).mpr ?_
  exact (mem_dedupFirst _ _).mpr (List.mem_map_of_mem (keyOf gcols) hr)

theorem keys_groupbyAggregate (df : DataFrame) (gcols : List String)
    (v : String) (a : AggType) :
    (groupbyAggregate df gcols v a).map AggRow.key = groupKeys df gcols := by
  unfold groupbyAggregate
  by_cases h : a = AggType.count
  · rw [if_pos h, List.map_map]
    exact List.map_id _
  · rw [if_neg h, List.map_map]
    exact List.map_id _

theorem validRows_single (df : DataFrame) (g : String) :
    validRows df [g] = df.rows.filter (fun r => decide (getCell r g ≠ Value.missing)) := by
  unfold validRows
  apply List.filter_congr
  intro r _
  simp only [decide_eq_decide, keyOf, List.map_cons, List.map_nil, List.mem_singleton]
  exact ⟨fun h h' => h h'.symm, fun h h' => h h'.symm⟩

/-- C1.  The claim as stated fails (see `C1_sum_mass_cex`): pandas
`groupby` drops rows whose grouping key is missing, so their `v` values
leave the total.  Amended claim, proved here: for a numeric value column
`v`, the sum of `Result` over all rows of
`aggregate(D, group=[g], value=v, reducer=sum)` equals the sum of the
non-missing values of `v` over those rows of `D` whose grouping value
`g` is non-missing. -/
theorem C1_sum_mass (df : DataFrame) (g v : String) (_hv : v ∈ numeric_cols df) :
    resultSum (groupbyAggregate df [g] v AggType.sum)
      = ((df.rows.filter (fun r => decide (getCell r g ≠ Value.missing))).map
          (fun r => valQ0 (getCell r v))).sum := by
  have h1 : resultSum (groupbyAggregate df [g] v AggType.sum)
      = ((groupKeys df [g]).map (fun k =>
          (((groupOf df [g] k).map (fun r => getCell r v)).map valQ0).sum)).sum := by
    unfold resultSum groupbyAggregate
    rw [if_neg (by simp), List.map_map]
    congr 1
    apply List.map_congr_left
    intro k _
    simp only [Function.comp]
    show AggResult.q0 (applyAgg AggType.sum ((groupOf df [g] k).map (fun r => getCell r v)))
      = (((groupOf df [g] k).map (fun r => getCell r v)).map valQ0).sum
    rw [show applyAgg AggType.sum ((groupOf df [g] k).map (fun r => getCell r v))
        = AggResult.exact (((nonMissingInts ((groupOf df [g] k).map (fun r => getCell r v))).sum : Int) : ℚ)
        from rfl]
    exact sumInts_cast _
  rw [h1]
  have h2 : ((groupKeys df [g]).map (fun k =>
      (((groupOf df [g] k).map (fun r => getCell r v)).map valQ0).sum)).sum
      = ((validRows df [g]).map (fun r => valQ0 (getCell r v))).sum := by
    have := sum_groups (fun r => valQ0 (getCell r v)) (keyOf [g])
      (groupKeys df [g]) (validRows df [g]) (groupKeys_nodup df [g])
      (fun r hr => mem_groupKeys df [g] r hr)
    rw [← this]
    congr 1
    apply List.map_congr_left
    intro k _
    rw [List.map_map]
    rfl
  rw [h2, validRows_single]

/-- C1, counterexample: in `dfC1` the grouping column `g` holds `["A",
missing]` and the numeric column `v` holds `[1, 2]`; the aggregation
yields the single row `(A, 1)`, so the `Result` total is 1, while the
sum of all non-missing values of `v` in the dataset is 3. -/
theorem C1_sum_mass_cex :
    resultSum (groupbyAggregate dfC1 ["g"] "v" AggType.sum)
        ≠ ((nonMissingInts (colValues dfC1 "v")).sum : ℚ)
    ∧ "v" ∈ numeric_cols dfC1 ∧ "g" ∈ categorical_cols dfC1 := by
  refine ⟨?_, by decide, by decide⟩
  have h : groupbyAggregate dfC1 ["g"] "v" AggType.sum
      = [⟨[Value.str "A"], AggResult.exact 1⟩] := by decide
  have h2 : (nonMissingInts (colValues dfC1 "v")).sum = 3 := by decide
  rw [h, h2]
  simp [resultSum, AggResult.q0]

/-- C1, witness for `C1_sum_mass`: its hypothesis holds at `dfC1` with
value column `v`, and the amended equality is obtained there. -/
theorem C1_sum_mass_witness :
    "v" ∈ numeric_cols dfC1
    ∧ resultSum (groupbyAggregate dfC1 ["g"] "v" AggType.sum)
      = ((dfC1.rows.filter (fun r => decide (getCell r "g" ≠ Value.missing))).map
          (fun r => valQ0 (getCell r "v"))).sum :=
  ⟨by decide, C1_sum_mass dfC1 "g" "v" (by decide)⟩

theorem map_keyOf_single (df : DataFrame) (g : String) :
    (validRows df [g]).map (keyOf [g])
      = ((validRows df [g]).map (fun r => getCell r g)).map (fun x => [x]) := by
  rw [List.map_map]
  rfl

theorem singleton_injective : Function.Injective (fun x : Value => [x]) := by
  intro x y h
  simpa using h

/-- C2.  The claim as stated fails (see `C2_count_rows_cex`): pandas
`groupby(...).size()` drops rows whose grouping value is missing.
Amended claim, proved here: `aggregate(D, group=[g], reducer=count)`
produces one output row per distinct non-missing value of `g`, and the
`Result` total equals the number of rows of `D` whose `g` value is
non-missing. -/
theorem C2_count_rows (df : DataFrame) (g v : String) :
    (groupbyAggregate df [g] v AggType.count).length
        = (dedupFirst (nonMissing (colValues df g))).length
    ∧ resultSum (groupbyAggregate df [g] v AggType.count)
        = ((df.rows.filter (fun r => decide (getCell r g ≠ Value.missing))).length : ℚ) := by
  constructor
  · have hlen : (groupbyAggregate df [g] v AggType.count).length = (groupKeys df [g]).length := by
      rw [← keys_groupbyAggregate df [g] v AggType.count, List.length_map]
    rw [hlen]
    unfold groupKeys
    rw [(sortBy_perm keyLe _).length_eq]
    rw [map_keyOf_single, dedupFirst_map _ singleton_injective, List.length_map]
    rw [validRows_single]
    unfold nonMissing colValues
    rw [filterOfMap]
  · unfold groupbyAggregate
    rw [if_pos rfl]
    unfold resultSum
    rw [List.map_map]
    have h1 : ((groupKeys df [g]).map ((fun a => AggResult.q0 a.result)
          ∘ fun k => AggRow.mk k (AggResult.exact ((groupOf df [g] k).length : ℚ)))).sum
        = ((groupKeys df [g]).map (fun k =>
            (((validRows df [g]).filter (fun r => decide (keyOf [g] r = k))).map
              (fun _ => (1 : ℚ))).sum)).sum := by
      congr 1
      apply List.map_congr_left
      intro k _
      show AggResult.q0 (AggResult.exact ((groupOf df [g] k).length : ℚ))
        = (((validRows df [g]).filter (fun r => decide (keyOf [g] r = k))).map
            (fun _ => (1 : ℚ))).sum
      rw [sum_const_one_q]
      rfl
    rw [h1]
    rw [sum_groups (fun _ => (1 : ℚ)) (keyOf [g]) (groupKeys df [g]) (validRows df [g])
      (groupKeys_nodup df [g]) (fun r hr => mem_groupKeys df [g] r hr)]
    rw [sum_const_one_q, validRows_single]

/-- C2, counterexample: in `dfC2` the grouping column `g` holds `["A",
missing]`; the count aggregation yields the single row `(A, 1)`.  So the
output has 1 row although `g` has 2 distinct values in the dataset, and
the `Result` total is 1 although the dataset has 2 rows. -/
theorem C2_count_rows_cex :
    (groupbyAggregate dfC2 ["g"] "g" AggType.count).length
        ≠ (dedupFirst (colValues dfC2 "g")).length
    ∧ resultSum (groupbyAggregate dfC2 ["g"] "g" AggType.count) ≠ ((dfC2.rows.length : Nat) : ℚ) := by
  constructor
  · decide
  · have h : groupbyAggregate dfC2 ["g"] "g" AggType.count
        = [⟨[Value.str "A"], AggResult.exact 1⟩] := by decide
    have h2 : dfC2.rows.length = 2 := by decide
    rw [h, h2]
    simp [resultSum, AggResult.q0]

/-- C3.  The claim as stated fails (see `C3_group_order_cex`): pandas
`groupby` defaults to `sort=True`, so output rows follow ascending sorted
key order, not first-seen order.  Amended claim, proved here: the rows of
every aggregation result appear in ascending sorted order of their group
keys (distinct keys, sorted lexicographically); in the spec's example
`Region=[A,A,B]`, `Sales=[10,20,30]` the result is `[(A,30),(B,30)]` — A
before B because A sorts first (which coincides with first-seen there). -/
theorem C3_group_order :
    (∀ (df : DataFrame) (gcols : List String) (v : String) (a : AggType),
        ((groupbyAggregate df gcols v a).map AggRow.key).Pairwise (fun x y => keyLe x y = true)
        ∧ ((groupbyAggregate df gcols v a).map AggRow.key).Nodup)
    ∧ groupbyAggregate dfC3ex ["Region"] "Sales" AggType.sum
        = [⟨[Value.str "A"], AggResult.exact 30⟩, ⟨[Value.str "B"], AggResult.exact 30⟩] := by
  constructor
  · intro df gcols v a
    rw [keys_groupbyAggregate]
    constructor
    · exact pairwise_sortBy keyLe keyLe_total keyLe_trans _
    · exact groupKeys_nodup df gcols
  · decide

/-- C3, counterexample: in `dfC3` the input order of `Region` is `[B, A]`,
so the first-seen key order is `[B, A]`, yet the aggregation emits `A`
first (sorted order).  The rows of the result are not in first-seen
order. -/
theorem C3_group_order_cex :
    (groupbyAggregate dfC3 ["Region"] "Sales" AggType.sum).map AggRow.key
        = [[Value.str "A"], [Value.str "B"]]
    ∧ firstSeenKeys dfC3 ["Region"] = [[Value.str "B"], [Value.str "A"]]
    ∧ (groupbyAggregate dfC3 ["Region"] "Sales" AggType.sum).map AggRow.key
        ≠ firstSeenKeys dfC3 ["Region"] := by
  refine ⟨by decide, by decide, by decide⟩

/-- C4.  The claim as stated fails (see `C4_classify_partition_cex`):
`read_csv` loads a column consisting entirely of True/False tokens as
`bool` dtype, which `select_dtypes(include=['int64','float64'])` and
`select_dtypes(include=['object','category'])` both miss, so such a
column joins neither the numeric nor the categorical set and the joint
cover fails.  Amended claim, proved here: the numeric and categorical
sets are mutually exclusive; every column whose inferred dtype is not
`bool` is placed in exactly one of them; a `bool`-dtype column is placed
in neither; and the date-like set is a subset of the dataset's columns. -/
theorem C4_classify_partition (df : DataFrame) (c : String) (hc : c ∈ df.cols) :
    (columnDtype (colValues df c) ≠ Dtype.boolean →
        ((c ∈ numeric_cols df ∧ c ∉ categorical_cols df)
          ∨ (c ∉ numeric_cols df ∧ c ∈ categorical_cols df)))
    ∧ (columnDtype (colValues df c) = Dtype.boolean →
        (c ∉ numeric_cols df ∧ c ∉ categorical_cols df))
    ∧ (∀ d, d ∈ date_cols df → d ∈ df.cols) := by
  refine ⟨?_, ?_, fun d hd => List.mem_of_mem_filter hd⟩
  · intro hnb
    cases h : columnDtype (colValues df c) with
    | int64 =>
        left
        simp [numeric_cols, categorical_cols, select_dtypes, List.mem_filter, hc, h]
    | float64 =>
        left
        simp [numeric_cols, categorical_cols, select_dtypes, List.mem_filter, hc, h]
    | boolean => exact absurd h hnb
    | obj =>
        right
        simp [numeric_cols, categorical_cols, select_dtypes, List.mem_filter, hc, h]
  · intro hb
    simp [numeric_cols, categorical_cols, select_dtypes, List.mem_filter, hc, hb]

/-- C4, counterexample: column `b` of `dfC4b` holds only True/False
tokens, so it loads as `bool` dtype; it is a column of the dataset but
belongs to neither the numeric nor the categorical set, refuting the
claim that the two sets jointly cover all columns. -/
theorem C4_classify_partition_cex :
    "b" ∈ dfC4b.cols
    ∧ columnDtype (colValues dfC4b "b") = Dtype.boolean
    ∧ "b" ∉ numeric_cols dfC4b
    ∧ "b" ∉ categorical_cols dfC4b := by
  refine ⟨by decide, by decide, by decide, by decide⟩

/-- C4, witness for `C4_classify_partition`: column `v` of `dfC4` is a
column of the dataset of non-bool dtype, and it lands in the numeric set
only. -/
theorem C4_classify_partition_witness :
    "v" ∈ dfC4.cols
    ∧ columnDtype (colValues dfC4 "v") ≠ Dtype.boolean
    ∧ (("v" ∈ numeric_cols dfC4 ∧ "v" ∉ categorical_cols dfC4)
        ∨ ("v" ∉ numeric_cols dfC4 ∧ "v" ∈ categorical_cols dfC4)) :=
  ⟨by decide, by decide, (C4_classify_partition dfC4 "v" (by decide)).1 (by decide)⟩

/-- C6, code-bug evidence: the only row of `dfC6` has a missing value in
its only column, yet the free-text search for `"a"` keeps it, because
`astype(str)` renders the missing cell as the string `"nan"` (which
contains `"a"`) before `str.contains(..., na=False)` can exclude it.
The claim — missing values never match the query — matches the intent of
the `na=False` argument the source itself passes, but not the code's
behaviour. -/
theorem C6_missing_match_bug :
    dfDisplay dfC6 [] "a" = Except.ok dfC6
    ∧ rowMatchesSearch dfC6 "a" [("c", Value.missing)] = true
    ∧ renderCell (columnDtype (colValues dfC6 "c")) Value.missing = "nan" := by
  refine ⟨by decide, by decide, by decide⟩

/-- C7, code-bug evidence: the free-text search is not total — the query
`"("` is passed raw to `str.contains(search, case=False)`, which compiles
it as a regular expression and raises `re.error` (uncaught, halting the
script), while the claim says filtering never raises.  The categorical
allow-list filter alone (empty query) is total and returns the dataset. -/
theorem C7_search_error_bug :
    dfDisplay dfC7 [] "(" = Except.error ("re.error")
    ∧ reCompileOk "(" = false
    ∧ dfDisplay dfC7 [] "" = Except.ok dfC7 := by
  refine ⟨by decide, by decide, by decide⟩

/-- C8: whenever an aggregation request does not succeed — empty grouping
selection, missing value column, or an error inside the `try` block —
the session state (the stored result and its config) is left exactly as
it was; the stored cell is replaced only by a successful aggregation. -/
theorem C8_state_preserved (sess : SessionState) (df : DataFrame) (gcols : List String)
    (vcol : Option String) (a : AggType)
    (h : (runAnalysis sess df gcols vcol a).2 ≠ RunOutcome.success) :
    (runAnalysis sess df gcols vcol a).1 = sess := by
  cases gcols with
  | nil => rfl
  | cons g gs =>
    cases vcol with
    | none => rfl
    | some v =>
      cases hE : groupbyAggregateE df (g :: gs) v a with
      | ok res =>
          exfalso
          apply h
          simp [runAnalysis, hE]
      | error e =>
          simp [runAnalysis, hE]

/-- C8, witness for `C8_state_preserved`: a request with an empty
grouping selection does not succeed, and the previously stored result
survives unchanged. -/
theorem C8_state_preserved_witness :
    (runAnalysis sessC8 dfC8 [] none AggType.sum).2 ≠ RunOutcome.success
    ∧ (runAnalysis sessC8 dfC8 [] none AggType.sum).1 = sessC8 :=
  ⟨by decide, C8_state_preserved sessC8 dfC8 [] none AggType.sum (by decide)⟩

theorem le_foldr_max (l : List Nat) (x : Nat) (hx : x ∈ l) : x ≤ l.foldr max 0 := by
  induction l with
  | nil => cases hx
  | cons a t ih =>
    rcases List.mem_cons.mp hx with rfl | hx'
    · exact le_max_left _ _
    · exact le_trans (ih hx') (le_max_right _ _)

/-- C9.  The claim as stated fails (see `C9_mode_tiebreak_cex`): pandas
`mode()` returns the tied values in ascending sorted order, so `mode()[0]`
is the smallest tied value, not the first-encountered one.  Amended
claim, proved here: the most-frequent-value statistic returns a
non-missing value of maximal count, and among the values sharing the
maximal count it returns the least in ascending sort order. -/
theorem C9_mode_tiebreak (vals : List Value) (m : Value)
    (hm : (seriesMode vals).head? = some m) :
    m ∈ nonMissing vals
    ∧ (∀ w, w ∈ nonMissing vals → (nonMissing vals).count w ≤ (nonMissing vals).count m)
    ∧ (∀ w, w ∈ nonMissing vals →
        (nonMissing vals).count w = (nonMissing vals).count m → valLe m w = true) := by
  set nm := nonMissing vals with hnm
  set ks := dedupFirst nm with hks
  set mx := (ks.map (fun k => nm.count k)).foldr max 0 with hmx
  set ties := ks.filter (fun k => decide (nm.count k = mx)) with hties
  have hsm : seriesMode vals = sortBy valLe ties := rfl
  rw [hsm] at hm
  cases hL : sortBy valLe ties with
  | nil =>
      rw [hL] at hm
      cases hm
  | cons a t =>
      rw [hL] at hm
      have ham : a = m := by simpa using hm
      subst ham
      have hmemL : a ∈ sortBy valLe ties := by
        rw [hL]
        exact List.mem_cons_self a t
      have hmemT : a ∈ ties := (sortBy_perm valLe ties).mem_iff.mp hmemL
      rcases List.mem_filter.mp hmemT with ⟨hmk, hcntd⟩
      have hcmx : nm.count a = mx := of_decide_eq_true hcntd
      have hmnm : a ∈ nm := (mem_dedupFirst a nm).mp hmk
      refine ⟨hmnm, ?_, ?_⟩
      · intro w hw
        have hwks : w ∈ ks := (mem_dedupFirst w nm).mpr hw
        have : nm.count w ∈ ks.map (fun k => nm.count k) :=
          List.mem_map_of_mem (fun k => nm.count k) hwks
        have := le_foldr_max _ _ this
        rw [hcmx]
        exact this
      · intro w hw hcw
        have hwks : w ∈ ks := (mem_dedupFirst w nm).mpr hw
        have hwties : w ∈ ties :=
          List.mem_filter.mpr ⟨hwks, decide_eq_true (hcw.trans hcmx)⟩
        have hwL : w ∈ sortBy valLe ties := (sortBy_perm valLe ties).mem_iff.mpr hwties
        rw [hL] at hwL
        rcases List.mem_cons.mp hwL with rfl | hwt
        · exact valLe_refl w
        · have hp := pairwise_sortBy valLe valLe_total valLe_trans ties
          rw [hL] at hp
          exact (List.pairwise_cons.mp hp).1 w hwt

/-- C9, witness for `C9_mode_tiebreak`: on the column `["b", "a"]` the
statistic is defined (`some "a"`), and it is a non-missing value of the
column. -/
theorem C9_mode_tiebreak_witness :
    (seriesMode valsC9).head? = some (Value.str "a")
    ∧ Value.str "a" ∈ nonMissing valsC9 :=
  ⟨by decide, (C9_mode_tiebreak valsC9 (Value.str "a") (by decide)).1⟩

/-- C9, counterexample: in column `c` of `dfC9` the values `"b"` and
`"a"` are tied (one occurrence each) and `"b"` is encountered first, yet
the summary's most-frequent entry is `"a"` — the sorted-smallest tie,
not the first-encountered one. -/
theorem C9_mode_tiebreak_cex :
    (catInfoRow dfC9 "c").2.2 = some (Value.str "a")
    ∧ firstSeenMode (colValues dfC9 "c") = some (Value.str "b")
    ∧ (catInfoRow dfC9 "c").2.2 ≠ firstSeenMode (colValues dfC9 "c") := by
  refine ⟨by decide, by decide, by decide⟩

/-- C10: in Simple mode every chart and summary input is taken from
`df_display`, the dataset after BOTH the categorical allow-list filters
and the free-text search: every row of a displayed frame matches the
(non-empty) search query, and on a concrete dataset where the search
removes a row, the pie data, the histogram source, the describe table and
the categorical summary all differ from their filter-only (empty query)
counterparts. -/
theorem C10_charts_after_search :
    (∀ (df : DataFrame) (fs : List (String × List String)) (q : String) (d : DataFrame) (r : Row),
        dfDisplay df fs q = Except.ok d → r ∈ d.rows → q ≠ "" → rowMatchesSearch df q r = true)
    ∧ autoPieData dfC10 [] "x" "c" ≠ autoPieData dfC10 [] "" "c"
    ∧ autoHistSource dfC10 [] "x" "n" ≠ autoHistSource dfC10 [] "" "n"
    ∧ autoDescribe dfC10 [] "x" ≠ autoDescribe dfC10 [] ""
    ∧ autoCatInfo dfC10 [] "x" ≠ autoCatInfo dfC10 [] "" := by
  refine ⟨?_, by decide, by decide, by decide, by decide⟩
  intro df fs q d r hok hr hq
  have hun : dfDisplay df fs q
      = if q = "" then Except.ok (applyFilters df fs)
        else if reCompileOk q then
          Except.ok { applyFilters df fs with
                      rows := (applyFilters df fs).rows.filter (rowMatchesSearch df q) }
        else Except.error ("re.error") := rfl
  rw [hun, if_neg hq] at hok
  by_cases hre : reCompileOk q = true
  · rw [if_pos hre] at hok
    simp only [Except.ok.injEq] at hok
    subst hok
    exact (List.mem_filter.mp hr).2
  · rw [if_neg hre] at hok
    simp at hok

/-- C10, witness for `C10_charts_after_search`: its hypotheses hold at
`dfC10` with query `"x"` — the displayed frame is `dC10` — and the
surviving row indeed matches the search. -/
theorem C10_charts_after_search_witness :
    dfDisplay dfC10 [] "x" = Except.ok dC10
    ∧ rowMatchesSearch dfC10 "x" [("c", Value.str "x"), ("n", Value.num 1)] = true :=
  ⟨by decide,
   C10_charts_after_search.1 dfC10 [] "x" dC10 [("c", Value.str "x"), ("n", Value.num 1)]
     (by decide) (by decide) (by decide)⟩

end Dash
